import Mathlib

/-!
Verification of the grid-packing layout core of an inventory-grid UI.

The embedded code is `packItems` (first-fit packing of slots into a
fixed-column grid, honouring server-assigned fixed positions) together with
the derived empty-cell drop-target assignment `emptyCellSlots`.

Cells are pairs `(col, row) : Nat × Nat`.  The occupancy matrix of the
source (a lazily grown 2D boolean array) is embedded as the finite set of
cells currently marked occupied; the source only ever reads cells at
columns `< cols` after growing rows on demand, so the set of `true` cells
captures all observable behaviour.  The unbounded row scan of `findFree`
is embedded with enough fuel to cover every row up to one past the largest
occupied row; when the footprint is wider than the grid the source loops
forever, which the embedding represents as `none`.
-/

/-- Slot record.  The source reads `slot.slot`, `slot.name`,
`(slot as any).gridX` / `gridY` (the optional server-assigned fixed
position) and derives the footprint from the item metadata
(`gridWidth` / `gridHeight` on the item data). -/
structure Slot where
  slot : Nat
  name : Option String := none
  gridWidth : Option Nat := none
  gridHeight : Option Nat := none
  gridX : Option Nat := none
  gridY : Option Nat := none
deriving DecidableEq, Repr

/-- Modelled from the spec: `getItemWidth` is imported from `InventorySlot`,
which is not part of the sources; the spec says the footprint is determined
"from its item metadata (default 1×1)", and the item data carries an
optional `gridWidth`. -/
def getItemWidth (s : Slot) : Nat := s.gridWidth.getD 1

/-- Modelled from the spec: `getItemHeight` is imported from
`InventorySlot`, which is not part of the sources; default 1 as for the
width. -/
def getItemHeight (s : Slot) : Nat := s.gridHeight.getD 1

/-- `interface Placement { slot; col; row; w; h }`. -/
structure Placement where
  slot : Nat
  col : Nat
  row : Nat
  w : Nat
  h : Nat
deriving DecidableEq, Repr

/-- The cells `[col, col+w) × [row, row+h)` of a placed rectangle. -/
def rectCells (col row w h : Nat) : Finset (Nat × Nat) :=
  Finset.Ico col (col + w) ×ˢ Finset.Ico row (row + h)

/-- The cell rectangle a placement occupies. -/
def Placement.rect (p : Placement) : Finset (Nat × Nat) :=
  rectCells p.col p.row p.w p.h

/-- `markOccupied`: set every cell of the rectangle. -/
def markOccupied (occ : Finset (Nat × Nat)) (col row w h : Nat) :
    Finset (Nat × Nat) :=
  occ ∪ rectCells col row w h

/-- The `fits` check of `findFree`: every cell of the rectangle is free. -/
def fits (occ : Finset (Nat × Nat)) (c r w h : Nat) : Bool :=
  decide (rectCells c r w h ∩ occ = ∅)

/-- The inner column loop of `findFree`: try `k` successive columns
starting at `c`, returning the first that fits.  The source runs
`c = 0 .. cols - w` (with JS arithmetic, no iteration when `w > cols`),
i.e. `k = cols + 1 - w` columns from `0`. -/
def scanCols (occ : Finset (Nat × Nat)) (w h r : Nat) :
    Nat → Nat → Option Nat
  | 0, _ => none
  | k + 1, c => if fits occ c r w h then some c else scanCols occ w h r k (c + 1)

/-- One row of the `findFree` scan. -/
def findCol (occ : Finset (Nat × Nat)) (cols w h r : Nat) : Option Nat :=
  scanCols occ w h r (cols + 1 - w) 0

/-- The outer row loop of `findFree`, fuelled.  `scanRows occ cols w h fuel r`
tries rows `r, r+1, …, r+fuel-1` in order. -/
def scanRows (occ : Finset (Nat × Nat)) (cols w h : Nat) :
    Nat → Nat → Option (Nat × Nat)
  | 0, _ => none
  | fuel + 1, r =>
    match findCol occ cols w h r with
    | some c => some (c, r)
    | none => scanRows occ cols w h fuel (r + 1)

/-- Fuel that provably covers the scan: one past the largest occupied row
is always free, so the source's unbounded loop never reaches further when
it terminates at all. -/
def rowBound (occ : Finset (Nat × Nat)) : Nat :=
  occ.sup Prod.snd + 2

/-- `findFree`: first free `w×h` rectangle in row-major scan order, as
`some (col, row)`; `none` embeds the source's infinite loop (reachable
exactly when `w > cols`). -/
def findFree (occ : Finset (Nat × Nat)) (cols w h : Nat) :
    Option (Nat × Nat) :=
  scanRows occ cols w h (rowBound occ) 0

/-- The body of the `for (const slot of slots)` loop of `packItems`:
fixed position branch, else search. -/
def packStep (cols : Nat) (st : Finset (Nat × Nat) × List Placement)
    (s : Slot) : Option (Finset (Nat × Nat) × List Placement) :=
  match s.gridX, s.gridY with
  | some fc, some fr =>
    some (markOccupied st.1 fc fr (getItemWidth s) (getItemHeight s),
      st.2 ++ [⟨s.slot, fc, fr, getItemWidth s, getItemHeight s⟩])
  | _, _ =>
    match findFree st.1 cols (getItemWidth s) (getItemHeight s) with
    | some (c, r) =>
      some (markOccupied st.1 c r (getItemWidth s) (getItemHeight s),
        st.2 ++ [⟨s.slot, c, r, getItemWidth s, getItemHeight s⟩])
    | none => none

/-- Run the packing loop over a list of slots from a given state. -/
def runPack (cols : Nat) (st : Finset (Nat × Nat) × List Placement) :
    List Slot → Option (Finset (Nat × Nat) × List Placement)
  | [] => some st
  | s :: l =>
    match packStep cols st s with
    | some st' => runPack cols st' l
    | none => none

/-- The packing loop started from the empty grid. -/
def packAux (slots : List Slot) (cols : Nat) :
    Option (Finset (Nat × Nat) × List Placement) :=
  runPack cols (∅, []) slots

/-- `placements.reduce((m, p) => Math.max(m, p.row + p.h), 0)`. -/
def maxRowOf (places : List Placement) : Nat :=
  places.foldl (fun m p => max m (p.row + p.h)) 0

/-- `packItems`: placements plus `rows = Math.max(maxRow, 4)`.  `none`
embeds the source's divergence (a searched footprint wider than the
grid). -/
def packItems (slots : List Slot) (cols : Nat) :
    Option (List Placement × Nat) :=
  (packAux slots cols).map (fun st => (st.2, max (maxRowOf st.2) 4))

/-- Cells covered by the `placementMap`: every cell of each placement
whose slot id occurs in the rendered slot list (`slotsToRender.find`). -/
def coveredCells (slots : List Slot) (places : List Placement) :
    Finset (Nat × Nat) :=
  places.foldl
    (fun acc p => if slots.any (fun s => s.slot == p.slot) then acc ∪ p.rect else acc) ∅

/-- The grid cells of `rows × cols` in row-major scan order. -/
def gridCellsRM (rows cols : Nat) : List (Nat × Nat) :=
  ((List.range rows).map (fun r => (List.range cols).map (fun c => (c, r)))).flatten

/-- The loop body of `emptyCellSlots`: walk the cells, skip covered ones,
and give each uncovered cell the next empty slot while any remain. -/
def assignEmpty (covered : Finset (Nat × Nat)) (emptySlots : List Slot) :
    List (Nat × Nat) → Nat → List (Nat × Nat × Slot)
  | [], _ => []
  | cell :: cs, idx =>
    if cell ∈ covered then assignEmpty covered emptySlots cs idx
    else
      match emptySlots.get? idx with
      | some s => (cell.1, cell.2, s) :: assignEmpty covered emptySlots cs (idx + 1)
      | none => assignEmpty covered emptySlots cs idx

/-- `emptyCellSlots`: drop-target assignment of uncovered grid cells to
the slots holding no item (`slot.name === undefined`), in row-major scan
order, consuming empty slots in their original relative order. -/
def emptyCellSlots (slots : List Slot) (places : List Placement)
    (rows cols : Nat) : List (Nat × Nat × Slot) :=
  assignEmpty (coveredCells slots places)
    (slots.filter (fun s => s.name.isNone)) (gridCellsRM rows cols) 0

/-! ### Specification-side predicates for the first-fit search -/

/-- A `w×h` rectangle at `(c, r)` is admissible: inside the grid
horizontally and wholly unoccupied. -/
def FreeAt (occ : Finset (Nat × Nat)) (cols w h c r : Nat) : Prop :=
  c + w ≤ cols ∧ rectCells c r w h ∩ occ = ∅

/-- `(c, r)` is the row-major-first admissible position: admissible, and
no position at a strictly earlier row, or the same row and a strictly
smaller column, is admissible. -/
def IsFirstFree (occ : Finset (Nat × Nat)) (cols w h c r : Nat) : Prop :=
  FreeAt occ cols w h c r ∧
    ∀ c' r', (r' < r ∨ (r' = r ∧ c' < c)) → ¬ FreeAt occ cols w h c' r'

/-! ### Basic lemmas about rectangles and the fit test -/

theorem mem_rectCells {x : Nat × Nat} {c r w h : Nat} :
    x ∈ rectCells c r w h ↔
      (c ≤ x.1 ∧ x.1 < c + w) ∧ (r ≤ x.2 ∧ x.2 < r + h) := by
  simp [rectCells, Finset.mem_product, Finset.mem_Ico]

theorem fits_iff {occ : Finset (Nat × Nat)} {c r w h : Nat} :
    fits occ c r w h = true ↔ rectCells c r w h ∩ occ = ∅ := by
  simp [fits]

theorem fits_of_sup_lt {occ : Finset (Nat × Nat)} {c r w h : Nat}
    (hr : occ.sup Prod.snd < r) : fits occ c r w h = true := by
  rw [fits_iff]
  rw [Finset.eq_empty_iff_forall_not_mem]
  intro x hx
  rw [Finset.mem_inter] at hx
  have h1 : r ≤ x.2 := (mem_rectCells.mp hx.1).2.1
  have h2 : x.2 ≤ occ.sup Prod.snd := Finset.le_sup (f := Prod.snd) hx.2
  omega

/-! ### Characterisation of the column scan -/

theorem scanCols_eq_none {occ : Finset (Nat × Nat)} {w h r : Nat} :
    ∀ {k c₀ : Nat}, scanCols occ w h r k c₀ = none →
      ∀ c, c₀ ≤ c → c < c₀ + k → fits occ c r w h = false := by
  intro k
  induction k with
  | zero => intro c₀ _ c h1 h2; omega
  | succ k ih =>
    intro c₀ hscan c h1 h2
    rw [scanCols] at hscan
    by_cases hf : fits occ c₀ r w h = true
    · simp [hf] at hscan
    · rw [if_neg hf] at hscan
      rcases Nat.eq_or_lt_of_le h1 with heq | hlt
      · subst heq; exact Bool.eq_false_iff.mpr hf
      · exact ih hscan c hlt (by omega)

theorem scanCols_eq_some {occ : Finset (Nat × Nat)} {w h r : Nat} :
    ∀ {k c₀ c : Nat}, scanCols occ w h r k c₀ = some c →
      c₀ ≤ c ∧ c < c₀ + k ∧ fits occ c r w h = true ∧
        ∀ c', c₀ ≤ c' → c' < c → fits occ c' r w h = false := by
  intro k
  induction k with
  | zero => intro c₀ c hscan; exact absurd hscan (by simp [scanCols])
  | succ k ih =>
    intro c₀ c hscan
    rw [scanCols] at hscan
    by_cases hf : fits occ c₀ r w h = true
    · rw [if_pos hf] at hscan
      obtain rfl : c₀ = c := by exact Option.some.inj hscan
      exact ⟨le_refl _, by omega, hf, fun c' h1 h2 => by omega⟩
    · rw [if_neg hf] at hscan
      obtain ⟨h1, h2, h3, h4⟩ := ih hscan
      refine ⟨by omega, by omega, h3, ?_⟩
      intro c' hc1 hc2
      rcases Nat.eq_or_lt_of_le hc1 with heq | hlt
      · subst heq; exact Bool.eq_false_iff.mpr hf
      · exact h4 c' hlt hc2

/-! ### Characterisation of the row scan -/

theorem scanRows_eq_none {occ : Finset (Nat × Nat)} {cols w h : Nat} :
    ∀ {fuel r₀ : Nat}, scanRows occ cols w h fuel r₀ = none →
      ∀ r, r₀ ≤ r → r < r₀ + fuel → findCol occ cols w h r = none := by
  intro fuel
  induction fuel with
  | zero => intro r₀ _ r h1 h2; omega
  | succ fuel ih =>
    intro r₀ hscan r h1 h2
    rw [scanRows] at hscan
    cases hcol : findCol occ cols w h r₀ with
    | some c => rw [hcol] at hscan; exact absurd hscan (by simp)
    | none =>
      rw [hcol] at hscan
      rcases Nat.eq_or_lt_of_le h1 with heq | hlt
      · subst heq; exact hcol
      · exact ih hscan r hlt (by omega)

theorem scanRows_eq_some {occ : Finset (Nat × Nat)} {cols w h : Nat} :
    ∀ {fuel r₀ c r : Nat}, scanRows occ cols w h fuel r₀ = some (c, r) →
      r₀ ≤ r ∧ findCol occ cols w h r = some c ∧
        ∀ r', r₀ ≤ r' → r' < r → findCol occ cols w h r' = none := by
  intro fuel
  induction fuel with
  | zero => intro r₀ c r hscan; exact absurd hscan (by simp [scanRows])
  | succ fuel ih =>
    intro r₀ c r hscan
    rw [scanRows] at hscan
    cases hcol : findCol occ cols w h r₀ with
    | some c' =>
      rw [hcol] at hscan
      obtain ⟨rfl, rfl⟩ : c' = c ∧ r₀ = r := by
        have := Option.some.inj hscan
        exact ⟨congrArg Prod.fst this, congrArg Prod.snd this⟩
      exact ⟨le_refl _, hcol, fun r' h1 h2 => by omega⟩
    | none =>
      rw [hcol] at hscan
      obtain ⟨h1, h2, h3⟩ := ih hscan
      refine ⟨by omega, h2, ?_⟩
      intro r' hr1 hr2
      rcases Nat.eq_or_lt_of_le hr1 with heq | hlt
      · subst heq; exact hcol
      · exact h3 r' hlt hr2

/-! ### The search succeeds for admissible widths and finds the first fit -/

theorem findFree_isSome {occ : Finset (Nat × Nat)} {cols w h : Nat}
    (hw : w ≤ cols) : ∃ c r, findFree occ cols w h = some (c, r) := by
  cases hfind : findFree occ cols w h with
  | some p => obtain ⟨c, r⟩ := p; exact ⟨c, r, rfl⟩
  | none =>
    exfalso
    rw [findFree] at hfind
    have hrow := scanRows_eq_none hfind (occ.sup Prod.snd + 1) (by omega)
      (by rw [rowBound]; omega)
    rw [findCol] at hrow
    have hcol := scanCols_eq_none hrow 0 (by omega) (by omega)
    rw [fits_of_sup_lt (by omega)] at hcol
    exact Bool.true_eq_false.mp hcol

theorem findFree_firstFree {occ : Finset (Nat × Nat)} {cols w h c r : Nat}
    (hfind : findFree occ cols w h = some (c, r)) :
    IsFirstFree occ cols w h c r := by
  rw [findFree] at hfind
  obtain ⟨-, hcol, hprev⟩ := scanRows_eq_some hfind
  rw [findCol] at hcol
  obtain ⟨-, hlt, hfit, hbefore⟩ := scanCols_eq_some hcol
  have hw : w ≤ cols := by omega
  constructor
  · exact ⟨by omega, fits_iff.mp hfit⟩
  · rintro c' r' (hr | ⟨rfl, hc⟩)
    · intro ⟨hb, hfree⟩
      have hnone := hprev r' (by omega) hr
      rw [findCol] at hnone
      have := scanCols_eq_none hnone c' (by omega) (by omega)
      rw [fits_iff.mpr hfree] at this
      exact Bool.true_eq_false.mp this
    · intro ⟨hb, hfree⟩
      have := hbefore c' (by omega) hc
      rw [fits_iff.mpr hfree] at this
      exact Bool.true_eq_false.mp this

theorem isFirstFree_unique {occ : Finset (Nat × Nat)} {cols w h : Nat}
    {c r c' r' : Nat} (h1 : IsFirstFree occ cols w h c r)
    (h2 : IsFirstFree occ cols w h c' r') : c = c' ∧ r = r' := by
  by_contra hne
  rcases Nat.lt_trichotomy r r' with hr | hr | hr
  · exact h2.2 c r (Or.inl hr) h1.1
  · subst hr
    rcases Nat.lt_trichotomy c c' with hc | hc | hc
    · exact h2.2 c r (Or.inr ⟨rfl, hc⟩) h1.1
    · exact hne ⟨hc, rfl⟩
    · exact h1.2 c' r (Or.inr ⟨rfl, hc⟩) h2.1
  · exact h1.2 c' r' (Or.inl hr) h2.1

theorem findFree_col_le {occ : Finset (Nat × Nat)} {cols w h c r : Nat}
    (hfind : findFree occ cols w h = some (c, r)) : c + w ≤ cols :=
  (findFree_firstFree hfind).1.1

/-! ### Structural lemmas about the packing loop -/

theorem runPack_append {cols : Nat} :
    ∀ (l₁ l₂ : List Slot) (st : Finset (Nat × Nat) × List Placement),
      runPack cols st (l₁ ++ l₂) =
        (runPack cols st l₁).bind (fun st' => runPack cols st' l₂) := by
  intro l₁
  induction l₁ with
  | nil => intro l₂ st; rfl
  | cons s l ih =>
    intro l₂ st
    show (match packStep cols st s with
      | some st' => runPack cols st' (l ++ l₂)
      | none => none) =
      (match packStep cols st s with
        | some st' => runPack cols st' l
        | none => none).bind (fun st' => runPack cols st' l₂)
    cases packStep cols st s with
    | some st' => simpa using ih l₂ st'
    | none => rfl

/-- Each successful step appends exactly one placement carrying the
slot's id and footprint, and marks its rectangle occupied. -/
theorem packStep_some {cols : Nat} {st st' : Finset (Nat × Nat) × List Placement}
    {s : Slot} (hstep : packStep cols st s = some st') :
    ∃ p : Placement, st'.2 = st.2 ++ [p] ∧
      st'.1 = markOccupied st.1 p.col p.row p.w p.h ∧
      p.slot = s.slot ∧ p.w = getItemWidth s ∧ p.h = getItemHeight s := by
  rw [packStep] at hstep
  cases hx : s.gridX with
  | some fc =>
    cases hy : s.gridY with
    | some fr =>
      rw [hx, hy] at hstep
      obtain rfl := (Option.some.inj hstep).symm
      exact ⟨⟨s.slot, fc, fr, getItemWidth s, getItemHeight s⟩,
        rfl, rfl, rfl, rfl, rfl⟩
    | none =>
      rw [hx, hy] at hstep
      cases hfind : findFree st.1 cols (getItemWidth s) (getItemHeight s) with
      | some pos =>
        rw [hfind] at hstep
        obtain rfl := (Option.some.inj hstep).symm
        exact ⟨⟨s.slot, pos.1, pos.2, getItemWidth s, getItemHeight s⟩,
          rfl, rfl, rfl, rfl, rfl⟩
      | none => rw [hfind] at hstep; exact absurd hstep (by simp)
  | none =>
    rw [hx] at hstep
    cases hfind : findFree st.1 cols (getItemWidth s) (getItemHeight s) with
    | some pos =>
      rw [hfind] at hstep
      obtain rfl := (Option.some.inj hstep).symm
      exact ⟨⟨s.slot, pos.1, pos.2, getItemWidth s, getItemHeight s⟩,
        rfl, rfl, rfl, rfl, rfl⟩
    | none => rw [hfind] at hstep; exact absurd hstep (by simp)

/-- A run over `l` appends one placement per slot, matching ids and
footprints positionally. -/
theorem runPack_corr {cols : Nat} :
    ∀ (l : List Slot) (st st' : Finset (Nat × Nat) × List Placement),
      runPack cols st l = some st' →
      ∃ tail, st'.2 = st.2 ++ tail ∧
        List.Forall₂ (fun (s : Slot) (p : Placement) =>
          p.slot = s.slot ∧ p.w = getItemWidth s ∧ p.h = getItemHeight s) l tail := by
  intro l
  induction l with
  | nil =>
    intro st st' hrun
    obtain rfl := Option.some.inj hrun
    exact ⟨[], by simp, List.Forall₂.nil⟩
  | cons s l ih =>
    intro st st' hrun
    rw [runPack] at hrun
    cases hstep : packStep cols st s with
    | some st₁ =>
      rw [hstep] at hrun
      obtain ⟨p, hps, -, hid, hw, hh⟩ := packStep_some hstep
      obtain ⟨tail, htail, hcorr⟩ := ih st₁ st' hrun
      exact ⟨p :: tail, by rw [htail, hps]; simp,
        List.Forall₂.cons ⟨hid, hw, hh⟩ hcorr⟩
    | none => rw [hstep] at hrun; exact absurd hrun (by simp)

/-- When every footprint width fits the column count, every step and hence
the whole run succeeds. -/
theorem runPack_total {cols : Nat} :
    ∀ (l : List Slot) (st : Finset (Nat × Nat) × List Placement),
      (∀ s ∈ l, getItemWidth s ≤ cols) →
      ∃ st', runPack cols st l = some st' := by
  intro l
  induction l with
  | nil => intro st _; exact ⟨st, rfl⟩
  | cons s l ih =>
    intro st hws
    have hstep : ∃ st₁, packStep cols st s = some st₁ := by
      rw [packStep]
      cases hx : s.gridX with
      | some fc =>
        cases hy : s.gridY with
        | some fr => exact ⟨_, rfl⟩
        | none =>
          obtain ⟨c, r, hfind⟩ :=
            @findFree_isSome st.1 cols (getItemWidth s) (getItemHeight s)
              (hws s (by simp))
          rw [hfind]
          exact ⟨_, rfl⟩
      | none =>
        obtain ⟨c, r, hfind⟩ :=
          @findFree_isSome st.1 cols (getItemWidth s) (getItemHeight s)
            (hws s (by simp))
        rw [hfind]
        exact ⟨_, rfl⟩
    obtain ⟨st₁, hstep⟩ := hstep
    obtain ⟨st', hrun⟩ := ih st₁ (fun x hx => hws x (by simp [hx]))
    exact ⟨st', by simp [runPack, hstep, hrun]⟩

/-- Unpack a successful `packItems` run into its underlying loop run. -/
theorem packItems_eq_some {slots : List Slot} {cols : Nat}
    {places : List Placement} {rows : Nat}
    (h : packItems slots cols = some (places, rows)) :
    ∃ occ, runPack cols (∅, []) slots = some (occ, places) ∧
      rows = max (maxRowOf places) 4 := by
  rw [packItems, packAux] at h
  cases hrun : runPack cols (∅, []) slots with
  | some st =>
    obtain ⟨occ0, ps0⟩ := st
    rw [hrun] at h
    have h' : some (ps0, max (maxRowOf ps0) 4) = some (places, rows) := h
    have h'' := Option.some.inj h'
    injection h'' with h1 h2
    subst h1; subst h2
    exact ⟨occ0, rfl, rfl⟩
  | none => rw [hrun] at h; exact absurd h (by simp)

/-! ### Claim theorems -/

/-- C8.  `packItems` is deterministic: two runs on the same slot list and
column count return identical results (the embedding of the packer is a
pure function of its inputs). -/
theorem packItems_deterministic (slots : List Slot) (cols : Nat)
    (out₁ out₂ : Option (List Placement × Nat))
    (h₁ : packItems slots cols = out₁) (h₂ : packItems slots cols = out₂) :
    out₁ = out₂ := h₁ ▸ h₂ ▸ rfl

/-- Witness for C8 at a concrete input. -/
theorem packItems_deterministic_witness :
    packItems [⟨1, some "a", none, none, none, none⟩] 10 =
      packItems [⟨1, some "a", none, none, none, none⟩] 10 :=
  packItems_deterministic [⟨1, some "a", none, none, none, none⟩] 10 _ _ rfl rfl

/-- C5.  The returned row count is `max(4, max over placements of
`row + h`)` (the inner maximum read as `0` on the empty list, as in the
source's `reduce` with initial value `0`), hence always at least `4`. -/
theorem packItems_rows_formula (slots : List Slot) (cols : Nat)
    (places : List Placement) (rows : Nat)
    (h : packItems slots cols = some (places, rows)) :
    rows = max 4 (maxRowOf places) ∧ 4 ≤ rows := by
  obtain ⟨occ, -, hrows⟩ := packItems_eq_some h
  constructor
  · rw [hrows, Nat.max_comm]
  · rw [hrows]; omega

/-- Witness for C5 at a concrete input. -/
theorem packItems_rows_formula_witness :
    4 = max 4 (maxRowOf [⟨1, 0, 0, 1, 1⟩]) ∧ 4 ≤ 4 :=
  packItems_rows_formula [⟨1, some "a", none, none, none, none⟩] 10
    [⟨1, 0, 0, 1, 1⟩] 4 (by decide)

/-- C4.  When every footprint width is at most `cols` (and `cols > 0`),
`packItems` terminates with exactly one placement per input slot, in
one-to-one positional correspondence by slot index. -/
theorem packItems_total_one_per_slot (slots : List Slot) (cols : Nat)
    (hcols : 0 < cols) (hw : ∀ s ∈ slots, getItemWidth s ≤ cols) :
    ∃ places rows, packItems slots cols = some (places, rows) ∧
      places.length = slots.length ∧
      ∀ i (hi : i < slots.length) (hp : i < places.length),
        (places.get ⟨i, hp⟩).slot = (slots.get ⟨i, hi⟩).slot := by
  obtain ⟨st', hrun⟩ := runPack_total slots (∅, []) hw
  obtain ⟨tail, htail, hcorr⟩ := runPack_corr slots (∅, []) st' hrun
  simp only [List.nil_append] at htail
  refine ⟨tail, max (maxRowOf tail) 4, ?_, hcorr.length_eq.symm, ?_⟩
  · rw [packItems, packAux, hrun]
    simp only [Option.map_some', htail]
  · intro i hi hp
    exact (hcorr.get hi hp).1

/-- Witness for C4 at a concrete input. -/
theorem packItems_total_one_per_slot_witness :
    ∃ places rows,
      packItems [⟨7, some "x", some 2, some 2, none, none⟩] 10 =
        some (places, rows) ∧
      places.length = [(⟨7, some "x", some 2, some 2, none, none⟩ : Slot)].length ∧
      ∀ i (hi : i < [(⟨7, some "x", some 2, some 2, none, none⟩ : Slot)].length)
        (hp : i < places.length),
        (places.get ⟨i, hp⟩).slot =
          ([(⟨7, some "x", some 2, some 2, none, none⟩ : Slot)].get ⟨i, hi⟩).slot :=
  packItems_total_one_per_slot [⟨7, some "x", some 2, some 2, none, none⟩] 10
    (by decide) (by decide)

/-- C3.  A slot carrying a fixed position `(fc, fr)` (both coordinates
defined) is recorded at exactly that position with its footprint,
regardless of anything placed before it: the placement at the slot's
input index is `⟨s.slot, fc, fr, w, h⟩` unconditionally. -/
theorem packItems_fixed_exact (pre : List Slot) (s : Slot) (post : List Slot)
    (cols fc fr : Nat) (places : List Placement) (rows : Nat)
    (hx : s.gridX = some fc) (hy : s.gridY = some fr)
    (h : packItems (pre ++ s :: post) cols = some (places, rows)) :
    places.get? pre.length =
      some ⟨s.slot, fc, fr, getItemWidth s, getItemHeight s⟩ := by
  obtain ⟨occ, hrun, -⟩ := packItems_eq_some h
  rw [runPack_append] at hrun
  cases hpre : runPack cols (∅, []) pre with
  | none => rw [hpre] at hrun; exact absurd hrun (by simp)
  | some st₀ =>
    rw [hpre] at hrun
    replace hrun : runPack cols st₀ (s :: post) = some (occ, places) := hrun
    rw [runPack] at hrun
    have hstep : packStep cols st₀ s =
        some (markOccupied st₀.1 fc fr (getItemWidth s) (getItemHeight s),
          st₀.2 ++ [⟨s.slot, fc, fr, getItemWidth s, getItemHeight s⟩]) := by
      rw [packStep, hx, hy]
    rw [hstep] at hrun
    obtain ⟨tail, htail, hcorr⟩ := runPack_corr post _ _ hrun
    obtain ⟨tail₀, htail₀, hcorr₀⟩ := runPack_corr pre _ _ hpre
    simp only [List.nil_append] at htail₀
    have hplaces : places = tail₀ ++
        ⟨s.slot, fc, fr, getItemWidth s, getItemHeight s⟩ :: tail := by
      have h2 : places =
          (st₀.2 ++ [⟨s.slot, fc, fr, getItemWidth s, getItemHeight s⟩]) ++ tail :=
        htail
      rw [h2, htail₀, List.append_assoc]
      rfl
    rw [hplaces]
    have hlen : tail₀.length = pre.length := hcorr₀.length_eq.symm
    rw [List.get?_eq_getElem?, List.getElem?_append_right (by omega)]
    rw [hlen, Nat.sub_self]
    simp

/-- For a slot without a complete fixed position, the loop body runs the
first-fit search. -/
theorem packStep_search (cols : Nat) (o : Finset (Nat × Nat))
    (ps : List Placement) (s : Slot) (hnf : s.gridX = none ∨ s.gridY = none) :
    packStep cols (o, ps) s =
      match findFree o cols (getItemWidth s) (getItemHeight s) with
      | some (c, r) =>
        some (markOccupied o c r (getItemWidth s) (getItemHeight s),
          ps ++ [⟨s.slot, c, r, getItemWidth s, getItemHeight s⟩])
      | none => none := by
  rcases hnf with hx | hy
  · rw [packStep, hx]
  · rw [packStep, hy]
    cases s.gridX <;> rfl

/-- The placement a successful `packItems` run records for a slot without
a complete fixed position is the `findFree` result on the occupancy left
by the preceding slots. -/
theorem runPack_search_at (pre : List Slot) (s : Slot) (post : List Slot)
    (cols : Nat) (places : List Placement) (rows : Nat)
    (hnf : s.gridX = none ∨ s.gridY = none)
    (h : packItems (pre ++ s :: post) cols = some (places, rows)) :
    ∃ occ prePs c r,
      packAux pre cols = some (occ, prePs) ∧
      findFree occ cols (getItemWidth s) (getItemHeight s) = some (c, r) ∧
      places.get? pre.length =
        some ⟨s.slot, c, r, getItemWidth s, getItemHeight s⟩ := by
  obtain ⟨occF, hrun, -⟩ := packItems_eq_some h
  rw [runPack_append] at hrun
  cases hpre : runPack cols (∅, []) pre with
  | none => rw [hpre] at hrun; exact absurd hrun (by simp)
  | some st₀ =>
    obtain ⟨occ, prePs⟩ := st₀
    rw [hpre] at hrun
    replace hrun : runPack cols (occ, prePs) (s :: post) = some (occF, places) :=
      hrun
    rw [runPack, packStep_search cols occ prePs s hnf] at hrun
    cases hfind : findFree occ cols (getItemWidth s) (getItemHeight s) with
    | none => rw [hfind] at hrun; exact absurd hrun (by simp)
    | some cr =>
      obtain ⟨c, r⟩ := cr
      rw [hfind] at hrun
      replace hrun : runPack cols
          (markOccupied occ c r (getItemWidth s) (getItemHeight s),
            prePs ++ [⟨s.slot, c, r, getItemWidth s, getItemHeight s⟩]) post =
          some (occF, places) := hrun
      obtain ⟨tail, htail, -⟩ := runPack_corr post _ _ hrun
      obtain ⟨tail₀, htail₀, hcorr₀⟩ := runPack_corr pre _ _ hpre
      simp only [List.nil_append] at htail₀
      refine ⟨occ, prePs, c, r, hpre, hfind, ?_⟩
      have hplaces : places = tail₀ ++
          ⟨s.slot, c, r, getItemWidth s, getItemHeight s⟩ :: tail := by
        have h2 : places =
            (prePs ++ [⟨s.slot, c, r, getItemWidth s, getItemHeight s⟩]) ++ tail :=
          htail
        have h3 : prePs = tail₀ := htail₀
        rw [h2, h3, List.append_assoc]
        rfl
      rw [hplaces]
      have hlen : tail₀.length = pre.length := hcorr₀.length_eq.symm
      rw [List.get?_eq_getElem?, List.getElem?_append_right (by omega)]
      rw [hlen, Nat.sub_self]
      simp

/-- C2.  A slot without a fixed position is placed at the row-major-first
free rectangle of its footprint, relative to the occupancy left by all
previously processed slots; and on the spec's scenario (`cols = 10`,
footprints 1×1, 1×1, 2×2, 1×1, no fixed positions) the placements are
`(0,0)`, `(1,0)`, `(2,0)` (2×2) and `(4,0)` with 4 rows. -/
theorem packItems_first_fit :
    (∀ (pre : List Slot) (s : Slot) (post : List Slot) (cols : Nat)
      (occ : Finset (Nat × Nat)) (prePs places : List Placement) (rows : Nat),
      packAux pre cols = some (occ, prePs) →
      (s.gridX = none ∨ s.gridY = none) →
      packItems (pre ++ s :: post) cols = some (places, rows) →
      ∃ c r,
        findFree occ cols (getItemWidth s) (getItemHeight s) = some (c, r) ∧
        IsFirstFree occ cols (getItemWidth s) (getItemHeight s) c r ∧
        places.get? pre.length =
          some ⟨s.slot, c, r, getItemWidth s, getItemHeight s⟩) ∧
    packItems [⟨1, some "a", none, none, none, none⟩,
        ⟨2, some "b", none, none, none, none⟩,
        ⟨3, some "c", some 2, some 2, none, none⟩,
        ⟨4, some "d", none, none, none, none⟩] 10 =
      some ([⟨1, 0, 0, 1, 1⟩, ⟨2, 1, 0, 1, 1⟩, ⟨3, 2, 0, 2, 2⟩,
        ⟨4, 4, 0, 1, 1⟩], 4) := by
  constructor
  · intro pre s post cols occ prePs places rows hpre hnf h
    obtain ⟨occ', prePs', c, r, hpre', hfind, hget⟩ :=
      runPack_search_at pre s post cols places rows hnf h
    rw [hpre] at hpre'
    have h'' := Option.some.inj hpre'
    injection h'' with h1 h2
    subst h1
    exact ⟨c, r, hfind, findFree_firstFree hfind, hget⟩
  · decide

/-- Witness for C2: the fourth scenario slot (1×1, after 1×1, 1×1, 2×2)
is placed at the first free cell `(4, 0)`. -/
theorem packItems_first_fit_witness :
    ∃ c r,
      findFree
        (markOccupied
          (markOccupied (markOccupied ∅ 0 0 1 1) 1 0 1 1) 2 0 2 2) 10 1 1 =
        some (c, r) ∧
      IsFirstFree
        (markOccupied
          (markOccupied (markOccupied ∅ 0 0 1 1) 1 0 1 1) 2 0 2 2) 10 1 1 c r ∧
      ([⟨1, 0, 0, 1, 1⟩, ⟨2, 1, 0, 1, 1⟩, ⟨3, 2, 0, 2, 2⟩,
        ⟨4, 4, 0, 1, 1⟩] : List Placement).get? 3 = some ⟨4, c, r, 1, 1⟩ :=
  packItems_first_fit.1
    [⟨1, some "a", none, none, none, none⟩,
      ⟨2, some "b", none, none, none, none⟩,
      ⟨3, some "c", some 2, some 2, none, none⟩]
    ⟨4, some "d", none, none, none, none⟩ [] 10
    (markOccupied (markOccupied (markOccupied ∅ 0 0 1 1) 1 0 1 1) 2 0 2 2)
    [⟨1, 0, 0, 1, 1⟩, ⟨2, 1, 0, 1, 1⟩, ⟨3, 2, 0, 2, 2⟩]
    [⟨1, 0, 0, 1, 1⟩, ⟨2, 1, 0, 1, 1⟩, ⟨3, 2, 0, 2, 2⟩, ⟨4, 4, 0, 1, 1⟩] 4
    (by decide) (Or.inl rfl) (by decide)

/-- Loop invariant when no slot carries a complete fixed position: every
recorded rectangle is inside the occupancy set, all rectangles are
pairwise disjoint, and every recorded column span fits the grid. -/
theorem runPack_search_inv {cols : Nat} :
    ∀ (l : List Slot) (st st' : Finset (Nat × Nat) × List Placement),
      (∀ s ∈ l, s.gridX = none ∨ s.gridY = none) →
      (∀ p ∈ st.2, p.rect ⊆ st.1) →
      st.2.Pairwise (fun p q => p.rect ∩ q.rect = ∅) →
      (∀ p ∈ st.2, p.col + p.w ≤ cols) →
      runPack cols st l = some st' →
      (∀ p ∈ st'.2, p.rect ⊆ st'.1) ∧
        st'.2.Pairwise (fun p q => p.rect ∩ q.rect = ∅) ∧
        (∀ p ∈ st'.2, p.col + p.w ≤ cols) := by
  intro l
  induction l with
  | nil =>
    intro st st' _ h1 h2 h3 hrun
    obtain rfl := Option.some.inj hrun
    exact ⟨h1, h2, h3⟩
  | cons s l ih =>
    intro st st' hnf h1 h2 h3 hrun
    obtain ⟨o, ps⟩ := st
    rw [runPack, packStep_search cols o ps s (hnf s (by simp))] at hrun
    cases hfind : findFree o cols (getItemWidth s) (getItemHeight s) with
    | none => rw [hfind] at hrun; exact absurd hrun (by simp)
    | some cr =>
      obtain ⟨c, r⟩ := cr
      rw [hfind] at hrun
      replace hrun : runPack cols
          (markOccupied o c r (getItemWidth s) (getItemHeight s),
            ps ++ [⟨s.slot, c, r, getItemWidth s, getItemHeight s⟩]) l =
          some st' := hrun
      have hfree := (findFree_firstFree hfind).1
      refine ih _ st' (fun x hx => hnf x (by simp [hx])) ?_ ?_ ?_ hrun
      · intro p hp
        rcases List.mem_append.mp hp with hp | hp
        · exact (h1 p hp).trans Finset.subset_union_left
        · obtain rfl : p = ⟨s.slot, c, r, getItemWidth s, getItemHeight s⟩ :=
            List.mem_singleton.mp hp
          exact Finset.subset_union_right
      · rw [List.pairwise_append]
        refine ⟨h2, List.pairwise_singleton _ _, ?_⟩
        intro a ha b hb
        obtain rfl : b = ⟨s.slot, c, r, getItemWidth s, getItemHeight s⟩ :=
          List.mem_singleton.mp hb
        rw [Finset.eq_empty_iff_forall_not_mem]
        intro x hx
        rw [Finset.mem_inter] at hx
        have hx1 : x ∈ o := h1 a ha hx.1
        have hx2 : x ∈ rectCells c r (getItemWidth s) (getItemHeight s) ∩ o :=
          Finset.mem_inter.mpr ⟨hx.2, hx1⟩
        rw [hfree.2] at hx2
        exact absurd hx2 (Finset.not_mem_empty x)
      · intro p hp
        rcases List.mem_append.mp hp with hp | hp
        · exact h3 p hp
        · obtain rfl : p = ⟨s.slot, c, r, getItemWidth s, getItemHeight s⟩ :=
            List.mem_singleton.mp hp
          exact hfree.1

/-- C1 (amended).  For an input where no slot carries a fixed position
and every footprint width fits the column count, the returned placements
have pairwise disjoint cell rectangles. -/
theorem packItems_no_overlap_unfixed (slots : List Slot) (cols : Nat)
    (places : List Placement) (rows : Nat)
    (hnf : ∀ s ∈ slots, s.gridX = none ∨ s.gridY = none)
    (hw : ∀ s ∈ slots, getItemWidth s ≤ cols)
    (h : packItems slots cols = some (places, rows)) :
    places.Pairwise (fun p q => p.rect ∩ q.rect = ∅) := by
  obtain ⟨occ, hrun, -⟩ := packItems_eq_some h
  exact (runPack_search_inv slots (∅, []) (occ, places) hnf
    (by intro p hp; exact absurd hp (List.not_mem_nil p))
    List.Pairwise.nil
    (by intro p hp; exact absurd hp (List.not_mem_nil p)) hrun).2.1

/-- Witness for C1 at a concrete input. -/
theorem packItems_no_overlap_unfixed_witness :
    ([⟨1, 0, 0, 2, 2⟩, ⟨2, 2, 0, 1, 1⟩] : List Placement).Pairwise
      (fun p q => p.rect ∩ q.rect = ∅) :=
  packItems_no_overlap_unfixed
    [⟨1, some "a", some 2, some 2, none, none⟩,
      ⟨2, some "b", none, none, none, none⟩] 10
    [⟨1, 0, 0, 2, 2⟩, ⟨2, 2, 0, 1, 1⟩] 4
    (by decide) (by decide) (by decide)

/-- Counterexample to C1 as stated: all widths fit the grid, yet a slot
with a fixed position is recorded at the same cell a previously searched
slot already occupies, so the two returned rectangles overlap. -/
theorem packItems_fixed_overlap_cex :
    getItemWidth ⟨1, some "a", none, none, none, none⟩ ≤ 10 ∧
    getItemWidth ⟨2, some "b", none, none, some 0, some 0⟩ ≤ 10 ∧
    packItems [⟨1, some "a", none, none, none, none⟩,
        ⟨2, some "b", none, none, some 0, some 0⟩] 10 =
      some ([⟨1, 0, 0, 1, 1⟩, ⟨2, 0, 0, 1, 1⟩], 4) ∧
    ¬ ((Placement.mk 1 0 0 1 1).rect ∩ (Placement.mk 2 0 0 1 1).rect = ∅) := by
  refine ⟨by decide, by decide, by decide, ?_⟩
  decide

/-- C9 (amended).  Every placement of a slot without a complete fixed
position lies within the grid horizontally: `0 ≤ col` and
`col + w ≤ cols`, whatever the surrounding slots are; placements taken
from fixed positions are recorded unvalidated. -/
theorem packItems_search_within_cols (pre : List Slot) (s : Slot)
    (post : List Slot) (cols : Nat) (places : List Placement) (rows : Nat)
    (hnf : s.gridX = none ∨ s.gridY = none)
    (h : packItems (pre ++ s :: post) cols = some (places, rows)) :
    ∃ c r,
      places.get? pre.length =
        some ⟨s.slot, c, r, getItemWidth s, getItemHeight s⟩ ∧
      0 ≤ c ∧ c + getItemWidth s ≤ cols := by
  obtain ⟨occ, prePs, c, r, -, hfind, hget⟩ :=
    runPack_search_at pre s post cols places rows hnf h
  exact ⟨c, r, hget, Nat.zero_le c, findFree_col_le hfind⟩

/-- Witness for C9 at a concrete input: a searched 3×1 slot placed after
a fixed slot stays within an 11-column grid. -/
theorem packItems_search_within_cols_witness :
    ∃ c r,
      ([⟨9, 4, 0, 1, 1⟩, ⟨1, 0, 0, 3, 1⟩] : List Placement).get? 1 =
        some ⟨1, c, r, 3, 1⟩ ∧
      0 ≤ c ∧ c + 3 ≤ 11 :=
  packItems_search_within_cols [⟨9, some "z", none, none, some 4, some 0⟩]
    ⟨1, some "a", some 3, some 1, none, none⟩ [] 11
    [⟨9, 4, 0, 1, 1⟩, ⟨1, 0, 0, 3, 1⟩] 4 (Or.inr rfl) (by decide)

/-! ### Row-major fill by default 1×1 slots -/

/-- The cell the `i`-th 1×1 slot ends up in: `(i mod cols, i div cols)`. -/
def cellOfIdx (cols i : Nat) : Nat × Nat := (i % cols, i / cols)

/-- Occupancy after the first `k` default 1×1 slots. -/
def occK (cols k : Nat) : Finset (Nat × Nat) :=
  (Finset.range k).image (cellOfIdx cols)

/-- Expected placements for a run of default 1×1 slots starting at global
index `k`. -/
def rowMajorTail (cols : Nat) : Nat → List Slot → List Placement
  | _, [] => []
  | k, s :: l => ⟨s.slot, k % cols, k / cols, 1, 1⟩ :: rowMajorTail cols (k + 1) l

theorem rectCells_one_one (c r : Nat) : rectCells c r 1 1 = {(c, r)} := by
  rw [rectCells, Nat.Ico_succ_singleton c, Nat.Ico_succ_singleton r,
    Finset.singleton_product_singleton]

theorem mem_occK {cols k : Nat} {x : Nat × Nat} :
    x ∈ occK cols k ↔ ∃ i, i < k ∧ cellOfIdx cols i = x := by
  simp [occK, Finset.mem_image, Finset.mem_range]

/-- The cell `(k mod cols, k div cols)` is the row-major-first free 1×1
position in the occupancy left by `k` packed 1×1 slots. -/
theorem occK_firstFree {cols k : Nat} (hcols : 0 < cols) :
    IsFirstFree (occK cols k) cols 1 1 (k % cols) (k / cols) := by
  constructor
  · refine ⟨by have := Nat.mod_lt k hcols; omega, ?_⟩
    rw [rectCells_one_one, Finset.eq_empty_iff_forall_not_mem]
    intro x hx
    rw [Finset.mem_inter, Finset.mem_singleton] at hx
    obtain ⟨rfl, hx2⟩ := hx
    obtain ⟨i, hik, hcell⟩ := mem_occK.mp hx2
    rw [cellOfIdx, Prod.mk.injEq] at hcell
    have hdm : cols * (i / cols) + i % cols = i := Nat.div_add_mod i cols
    have hdm' : cols * (k / cols) + k % cols = k := Nat.div_add_mod k cols
    rw [hcell.1, hcell.2] at hdm
    omega
  · rintro c' r' hlt ⟨hb, hfree⟩
    have hc' : c' < cols := by omega
    have hmem : (c', r') ∈ occK cols k := by
      refine mem_occK.mpr ⟨cols * r' + c', ?_, ?_⟩
      · have hdm : cols * (k / cols) + k % cols = k := Nat.div_add_mod k cols
        rcases hlt with hr | ⟨rfl, hc⟩
        · have h1 : r' + 1 ≤ k / cols := hr
          have h2 : cols * (r' + 1) ≤ cols * (k / cols) :=
            Nat.mul_le_mul_left cols h1
          have h3 : k / cols * cols ≤ k := Nat.div_mul_le_self k cols
          have h4 : cols * (r' + 1) = cols * r' + cols := Nat.mul_succ cols r'
          omega
        · omega
      · rw [cellOfIdx, Nat.mul_add_mod, Nat.mod_eq_of_lt hc',
          Nat.mul_add_div hcols, Nat.div_eq_of_lt hc', Prod.mk.injEq]
        omega
    rw [rectCells_one_one, Finset.eq_empty_iff_forall_not_mem] at hfree
    exact hfree (c', r') (Finset.mem_inter.mpr ⟨Finset.mem_singleton_self _, hmem⟩)

theorem markOccupied_occK {cols k : Nat} :
    markOccupied (occK cols k) (k % cols) (k / cols) 1 1 = occK cols (k + 1) := by
  rw [markOccupied, rectCells_one_one]
  rw [occK, occK, Finset.range_succ, Finset.image_insert, Finset.insert_eq,
    Finset.union_comm]
  rfl

/-- Running the packer over default 1×1 unfixed slots from the `k`-slot
occupancy fills cells in row-major order. -/
theorem runPack_default_1x1 {cols : Nat} (hcols : 0 < cols) :
    ∀ (l : List Slot), (∀ s ∈ l, getItemWidth s = 1 ∧ getItemHeight s = 1 ∧
        (s.gridX = none ∨ s.gridY = none)) →
      ∀ (k : Nat) (acc : List Placement),
        runPack cols (occK cols k, acc) l =
          some (occK cols (k + l.length), acc ++ rowMajorTail cols k l) := by
  intro l
  induction l with
  | nil => intro _ k acc; simp [runPack, rowMajorTail]
  | cons s l ih =>
    intro hl k acc
    obtain ⟨hw1, hh1, hnf⟩ := hl s (by simp)
    rw [runPack, packStep_search cols (occK cols k) acc s hnf, hw1, hh1]
    have hsome : findFree (occK cols k) cols 1 1 = some (k % cols, k / cols) := by
      obtain ⟨c, r, hfind⟩ := @findFree_isSome (occK cols k) cols 1 1
        (hcols : (1 : Nat) ≤ cols)
      have h1 := findFree_firstFree hfind
      obtain ⟨hc, hr⟩ := isFirstFree_unique h1 (occK_firstFree hcols)
      rw [hfind, hc, hr]
    rw [hsome]
    have hmark := @markOccupied_occK cols k
    show runPack cols (markOccupied (occK cols k) (k % cols) (k / cols) 1 1,
        acc ++ [⟨s.slot, k % cols, k / cols, 1, 1⟩]) l =
      some (occK cols (k + (s :: l).length), acc ++ rowMajorTail cols k (s :: l))
    rw [hmark]
    have hih := ih (fun x hx => hl x (by simp [hx])) (k + 1)
      (acc ++ [⟨s.slot, k % cols, k / cols, 1, 1⟩])
    rw [hih]
    rw [List.append_assoc]
    have harith : k + 1 + l.length = k + (l.length + 1) := by omega
    rw [harith]
    rfl

theorem rowMajorTail_get? {cols : Nat} :
    ∀ (l : List Slot) (k i : Nat),
      (rowMajorTail cols k l).get? i =
        (l.get? i).map (fun s => ⟨s.slot, (k + i) % cols, (k + i) / cols, 1, 1⟩) := by
  intro l
  induction l with
  | nil => intro k i; cases i <;> rfl
  | cons s l ih =>
    intro k i
    cases i with
    | zero => rfl
    | succ i =>
      rw [rowMajorTail]
      have h1 : (⟨s.slot, k % cols, k / cols, 1, 1⟩ ::
          rowMajorTail cols (k + 1) l).get? (i + 1) =
          (rowMajorTail cols (k + 1) l).get? i := rfl
      rw [h1, ih (k + 1) i]
      have h2 : k + 1 + i = k + (i + 1) := by omega
      rw [h2]
      rfl

/-- C6.  On a slot list of only default 1×1 slots without fixed
positions, the `i`-th slot is placed at `(i mod cols, i div cols)`: the
placements fill the grid in row-major order with no gaps. -/
theorem packItems_default_1x1_row_major (slots : List Slot) (cols : Nat)
    (places : List Placement) (rows : Nat) (hcols : 0 < cols)
    (hs : ∀ s ∈ slots, getItemWidth s = 1 ∧ getItemHeight s = 1 ∧
      (s.gridX = none ∨ s.gridY = none))
    (h : packItems slots cols = some (places, rows)) :
    ∀ i (hi : i < slots.length),
      places.get? i =
        some ⟨(slots.get ⟨i, hi⟩).slot, i % cols, i / cols, 1, 1⟩ := by
  obtain ⟨occ, hrun, -⟩ := packItems_eq_some h
  have hocc0 : (∅ : Finset (Nat × Nat)) = occK cols 0 := by
    rw [occK]
    rfl
  rw [hocc0] at hrun
  rw [runPack_default_1x1 hcols slots hs 0 []] at hrun
  have hplaces : places = rowMajorTail cols 0 slots := by
    have := Option.some.inj hrun
    injection this with h1 h2
    rw [← h2]
    rfl
  intro i hi
  rw [hplaces, rowMajorTail_get? slots 0 i]
  rw [List.get?_eq_get hi]
  simp

/-- Witness for C6 at a concrete input: of three 1×1 slots in a 2-column
grid, the third (index 2) lands at `(2 mod 2, 2 div 2) = (0, 1)`. -/
theorem packItems_default_1x1_row_major_witness :
    ([⟨1, 0, 0, 1, 1⟩, ⟨2, 1, 0, 1, 1⟩,
      ⟨3, 0, 1, 1, 1⟩] : List Placement).get? 2 =
      some ⟨3, 2 % 2, 2 / 2, 1, 1⟩ :=
  packItems_default_1x1_row_major
    [⟨1, some "a", none, none, none, none⟩,
      ⟨2, none, none, none, none, none⟩,
      ⟨3, some "c", none, none, none, none⟩] 2
    [⟨1, 0, 0, 1, 1⟩, ⟨2, 1, 0, 1, 1⟩, ⟨3, 0, 1, 1, 1⟩] 4
    (by decide) (by decide) (by decide) 2 (by decide)

/-! ### Empty-cell drop-target assignment -/

theorem drop_eq_cons_of_get? {α : Type} {l : List α} {n : Nat} {a : α}
    (h : l.get? n = some a) : l.drop n = a :: l.drop (n + 1) := by
  have hlt : n < l.length := (List.get?_eq_some.mp h).1
  rw [List.drop_eq_getElem_cons hlt]
  congr 1
  rw [List.get?_eq_getElem?] at h
  exact ((List.getElem?_eq_some.mp h).2).symm ▸ rfl

/-- The assignment loop pairs the uncovered cells, in scan order, with
the empty slots from `idx` on, stopping at whichever list runs out. -/
theorem assignEmpty_eq_zip :
    ∀ (cs : List (Nat × Nat)) (covered : Finset (Nat × Nat))
      (es : List Slot) (idx : Nat),
      assignEmpty covered es cs idx =
        (List.zip (cs.filter (fun cell => decide (cell ∉ covered)))
          (es.drop idx)).map (fun x => (x.1.1, x.1.2, x.2)) := by
  intro cs
  induction cs with
  | nil => intro covered es idx; rfl
  | cons cell cs ih =>
    intro covered es idx
    by_cases hmem : cell ∈ covered
    · rw [assignEmpty, if_pos hmem, ih, List.filter_cons]
      have hdec : decide (cell ∉ covered) = false := by simp [hmem]
      rw [hdec]
      rfl
    · rw [assignEmpty, if_neg hmem]
      have hdec : decide (cell ∉ covered) = true := by simp [hmem]
      cases hidx : es.get? idx with
      | some s =>
        rw [ih, List.filter_cons, hdec]
        have hdrop : es.drop idx = s :: es.drop (idx + 1) :=
          drop_eq_cons_of_get? hidx
        rw [if_pos rfl, hdrop, List.zip_cons_cons, List.map_cons]
      | none =>
        have hlen : es.length ≤ idx := by
          by_contra hlt
          rw [List.get?_eq_get (by omega)] at hidx
          exact absurd hidx (by simp)
        have hdrop : es.drop idx = [] := List.drop_eq_nil_of_le hlen
        show assignEmpty covered es cs idx = _
        rw [ih, hdrop]
        simp

/-- C7.  Uncovered grid cells are assigned drop-target slots in row-major
scan order, consuming the item-free slots in their original relative
order, one per uncovered cell, with excess uncovered cells left
unassigned; on the spec's scenario (6 uncovered cells, 2 empty slots)
exactly 2 cells receive assignments. -/
theorem emptyCellSlots_zip_row_major :
    (∀ (slots : List Slot) (places : List Placement) (rows cols : Nat),
      emptyCellSlots slots places rows cols =
        (List.zip
          ((gridCellsRM rows cols).filter
            (fun cell => decide (cell ∉ coveredCells slots places)))
          (slots.filter (fun s => s.name.isNone))).map
          (fun x => (x.1.1, x.1.2, x.2))) ∧
    ((gridCellsRM 4 2).filter
      (fun cell => decide (cell ∉ coveredCells
        [⟨1, some "a", some 2, some 1, none, none⟩,
          ⟨2, none, none, none, none, none⟩,
          ⟨3, none, none, none, none, none⟩] [⟨1, 0, 0, 2, 1⟩]))).length = 6 ∧
    (([⟨1, some "a", some 2, some 1, none, none⟩,
        ⟨2, none, none, none, none, none⟩,
        ⟨3, none, none, none, none, none⟩] : List Slot).filter
      (fun s => s.name.isNone)).length = 2 ∧
    (emptyCellSlots
      [⟨1, some "a", some 2, some 1, none, none⟩,
        ⟨2, none, none, none, none, none⟩,
        ⟨3, none, none, none, none, none⟩] [⟨1, 0, 0, 2, 1⟩] 4 2).length = 2 := by
  refine ⟨?_, by decide, by decide, by decide⟩
  intro slots places rows cols
  rw [emptyCellSlots, assignEmpty_eq_zip, List.drop_zero]

/-- C10.  A slot with at most one of the two fixed coordinates defined is
placed by the search, the partial coordinate being ignored entirely; and
a fixed coordinate equal to 0 does count as defined: a slot fixed at
`(0, 5)` is recorded there (yielding 6 rows), not first-fit placed. -/
theorem packItems_partial_fixed_ignored :
    (∀ (pre : List Slot) (s : Slot) (post : List Slot) (cols : Nat),
      s.gridX = none ∨ s.gridY = none →
      packItems (pre ++ s :: post) cols =
        packItems (pre ++
          (⟨s.slot, s.name, s.gridWidth, s.gridHeight, none, none⟩ : Slot)
          :: post) cols) ∧
    packItems [⟨1, some "a", none, none, some 0, some 5⟩] 10 =
      some ([⟨1, 0, 5, 1, 1⟩], 6) := by
  constructor
  · intro pre s post cols hnf
    have hstep : ∀ st : Finset (Nat × Nat) × List Placement,
        packStep cols st s = packStep cols st
          ⟨s.slot, s.name, s.gridWidth, s.gridHeight, none, none⟩ := by
      intro st
      obtain ⟨o, ps⟩ := st
      rw [packStep_search cols o ps s hnf,
        packStep_search cols o ps
          ⟨s.slot, s.name, s.gridWidth, s.gridHeight, none, none⟩ (Or.inl rfl)]
      rfl
    rw [packItems, packItems, packAux, packAux, runPack_append, runPack_append]
    cases hpre : runPack cols (∅, []) pre with
    | none => rfl
    | some st =>
      have hbind : ∀ l : List Slot,
          (Option.some st).bind (fun st' => runPack cols st' l) =
            runPack cols st l := fun _ => rfl
      rw [hbind, hbind, runPack, runPack, hstep st]
  · decide

/-- Witness for C10: a slot with only `gridX` defined packs exactly as
the same slot with neither coordinate defined. -/
theorem packItems_partial_fixed_ignored_witness :
    packItems [(⟨2, some "b", none, none, some 7, none⟩ : Slot)] 10 =
      packItems [(⟨2, some "b", none, none, none, none⟩ : Slot)] 10 :=
  packItems_partial_fixed_ignored.1 [] ⟨2, some "b", none, none, some 7, none⟩
    [] 10 (Or.inr rfl)

/-- Counterexample to C9 as stated: a fixed position at column 9 with
width 2 in a 10-column grid is recorded unvalidated, so the returned
placement sticks out of the grid horizontally. -/
theorem packItems_fixed_out_of_bounds_cex :
    packItems [⟨1, some "a", some 2, some 1, some 9, some 0⟩] 10 =
      some ([⟨1, 9, 0, 2, 1⟩], 4) ∧
    ¬ ((Placement.mk 1 9 0 2 1).col + (Placement.mk 1 9 0 2 1).w ≤ 10) := by
  exact ⟨by decide, by decide⟩

/-- Witness for C3 at a concrete input: a fixed slot behind one searched
slot lands exactly at its fixed coordinates. -/
theorem packItems_fixed_exact_witness :
    ([⟨1, 0, 0, 1, 1⟩, ⟨2, 3, 1, 1, 1⟩] : List Placement).get? 1 =
      some ⟨2, 3, 1, 1, 1⟩ :=
  packItems_fixed_exact [⟨1, some "a", none, none, none, none⟩]
    ⟨2, some "b", none, none, some 3, some 1⟩ [] 10 3 1
    [⟨1, 0, 0, 1, 1⟩, ⟨2, 3, 1, 1, 1⟩] 4 rfl rfl (by decide)
